import Mathlib

/-!
Verification of the layered-window invalidation and redraw scheduler of
`src/ui_manager.cpp`.

The C++ core keeps a process-wide `ui_stack` (a vector of references to
`ui_adaptor` objects, index 0 = bottom, last = topmost).  We embed the stack
as a `List UiAdaptor`, where each element carries the fields of one
`ui_adaptor` that the invalidation and redraw machinery reads or writes.
Layer identity (address identity in C++) is embedded as the `id` field; every
live `ui_adaptor` registers itself in the stack at construction, so member
operations (`invalidate_ui`, `position`) are modelled as operations on the
stack entry of the layer.  The two callbacks are modelled by presence flags
(`has_redraw_cb`, `has_screen_resized_cb`); callback bodies are external code
and are modelled as not mutating the stack, which is exactly the code path in
which the scheduler's own flag bookkeeping is observable.
-/

namespace UiManager

/-- A 2-d integer point (`point` in the source). -/
structure Pt where
  x : Int
  y : Int
deriving DecidableEq

/-- Componentwise addition, as `point::operator+`. -/
def Pt.add (a b : Pt) : Pt :=
  ⟨a.x + b.x, a.y + b.y⟩

/-- Half-open axis-aligned rectangle (`rectangle<point>` in the source). -/
structure Rect where
  p_min : Pt
  p_max : Pt
deriving DecidableEq

/-- `contains( lhs, rhs )` from `ui_manager.cpp`: every edge of `rhs` is
within or equal to the corresponding edge of `lhs`. -/
def contains (lhs rhs : Rect) : Bool :=
  rhs.p_min.x ≥ lhs.p_min.x && rhs.p_max.x ≤ lhs.p_max.x &&
  rhs.p_min.y ≥ lhs.p_min.y && rhs.p_max.y ≤ lhs.p_max.y

/-- `overlap( lhs, rhs )` from `ui_manager.cpp`: the open rectangles
intersect. -/
def overlap (lhs rhs : Rect) : Bool :=
  lhs.p_min.x < rhs.p_max.x && lhs.p_min.y < rhs.p_max.y &&
  rhs.p_min.x < lhs.p_max.x && rhs.p_min.y < lhs.p_max.y

/-- One `ui_adaptor`: the fields read or written by the scheduler.  `id`
stands for the C++ object identity (address); the callback members are
represented by presence flags. -/
structure UiAdaptor where
  id : Nat
  dimensions : Rect
  invalidated : Bool
  disabling_uis_below : Bool
  deferred_resize : Bool
  has_redraw_cb : Bool
  has_screen_resized_cb : Bool
deriving DecidableEq

/-- Everything of a layer except its `invalidated` flag.  The consistency
pass only flips `invalidated` flags, which this projection makes precise. -/
def layerKey (ui : UiAdaptor) : Nat × Rect × Bool × Bool × Bool × Bool :=
  (ui.id, ui.dimensions, ui.disabling_uis_below, ui.deferred_resize,
   ui.has_redraw_cb, ui.has_screen_resized_cb)

/-- The `invalidated` flag of the layer at index `i`, if in bounds. -/
def invAt (stack : List UiAdaptor) (i : Nat) : Option Bool :=
  (stack[i]?).map (·.invalidated)

/-- The rectangle of the layer at index `i` (a default rectangle out of
bounds; all uses carry bounds). -/
def dimsAt (stack : List UiAdaptor) (i : Nat) : Rect :=
  ((stack[i]?).map (·.dimensions)).getD ⟨⟨0, 0⟩, ⟨0, 0⟩⟩

/-- First index (from the bottom) whose layer satisfies `p`, as an explicit
recursion (mirrors the linear scans done with iterators in the source). -/
def uiFindIdx (p : UiAdaptor → Bool) : List UiAdaptor → Option Nat
  | [] => none
  | ui :: rest => if p ui then some 0 else (uiFindIdx p rest).map (· + 1)

/-- Index of the first enabled layer: the source scans `ui_stack` from the
top down for the first layer with `disabling_uis_below` and takes that
position (`std::prev( rfirst.base() )`), or the bottom of the stack if none
is found. -/
def firstEnabledIdx (stack : List UiAdaptor) : Nat :=
  match uiFindIdx (fun ui => ui.disabling_uis_below) stack.reverse with
  | some j => stack.length - 1 - j
  | none => 0

/-- Rule 1 of the pass (cascade): if the upper layer is not invalidated, the
lower one is, and their rectangles overlap, mark the upper layer
invalidated. -/
def rule1 (up lo : UiAdaptor) : UiAdaptor :=
  if !up.invalidated && lo.invalidated &&
      overlap up.dimensions lo.dimensions then
    { up with invalidated := true }
  else up

/-- Rule 2 of the pass (occlusion), reading the upper layer as possibly just
updated by rule 1: if both are invalidated and the upper rectangle fully
contains the lower one, clear the lower layer's flag. -/
def rule2 (up' lo : UiAdaptor) : UiAdaptor :=
  if up'.invalidated && lo.invalidated &&
      contains up'.dimensions lo.dimensions then
    { lo with invalidated := false }
  else lo

/-- One iteration of the inner loop body of
`invalidation_consistency_and_optimization`, for the pair with upper index
`u` and lower index `l` of the enabled segment: rule 1 may set the upper
layer's flag, then rule 2 may clear the lower layer's flag. -/
def pairStep (es : List UiAdaptor) (u l : Nat) : List UiAdaptor :=
  match es[u]?, es[l]? with
  | some up, some lo =>
    (es.set u (rule1 up lo)).set l (rule2 (rule1 up lo) lo)
  | _, _ => es

/-- The inner loop of the pass: lower index `l` runs over `0, …, u - 1`
(`it_lower` from `first` up to `it_upper`). -/
def innerLoop (es : List UiAdaptor) (u : Nat) : List UiAdaptor :=
  (List.range u).foldl (fun acc l => pairStep acc u l) es

/-- The double loop of `invalidation_consistency_and_optimization` over the
enabled segment: upper index `u` runs bottom-to-top over the whole segment. -/
def reconcileSeg (es : List UiAdaptor) : List UiAdaptor :=
  (List.range es.length).foldl innerLoop es

/-- `ui_adaptor::invalidation_consistency_and_optimization`: run the
cascade/occlusion double loop over the enabled range `[firstEnabledIdx, top]`;
the disabled prefix is left untouched. -/
def invalidation_consistency_and_optimization (stack : List UiAdaptor) :
    List UiAdaptor :=
  let k := firstEnabledIdx stack
  stack.take k ++ reconcileSeg (stack.drop k)

/-- `ui_adaptor::invalidate( rect, reenable_uis_below )`: for a degenerate
rectangle, only (optionally) re-run the consistency pass; otherwise mark
every not-yet-invalidated layer of the whole stack whose rectangle overlaps
`rect`, then run the consistency pass. -/
def invalidate (stack : List UiAdaptor) (rect : Rect)
    (reenable_uis_below : Bool) : List UiAdaptor :=
  if rect.p_min.x ≥ rect.p_max.x || rect.p_min.y ≥ rect.p_max.y then
    if reenable_uis_below then
      invalidation_consistency_and_optimization stack
    else stack
  else
    invalidation_consistency_and_optimization
      (stack.map fun ui =>
        if !ui.invalidated && overlap ui.dimensions rect then
          { ui with invalidated := true }
        else ui)

/-- `ui_adaptor::invalidate_ui`: no-op when the layer is already
invalidated, when it is not found in the stack, or when a layer above it
fully contains its rectangle; otherwise mark it invalidated and run the
consistency pass.  (The C++ reads `this->invalidated` directly; since every
live layer is in the stack, we read the flag off the located stack entry.) -/
def invalidate_ui (stack : List UiAdaptor) (selfId : Nat) : List UiAdaptor :=
  match uiFindIdx (fun ui => ui.id == selfId) stack with
  | none => stack
  | some i =>
    match stack[i]? with
    | none => stack
    | some self =>
      if self.invalidated then stack
      else if (stack.drop (i + 1)).any
          (fun upper => contains upper.dimensions self.dimensions) then stack
      else
        invalidation_consistency_and_optimization
          (stack.set i { self with invalidated := true })

/-- `ui_adaptor::position( topleft, size )` (curses branch; the TILES branch
resolves the same rectangle through the external window-geometry
collaborator): store the new rectangle, set `invalidated`, then invalidate
the old rectangle's region without re-enabling layers below.  The layer is
identified by its stack index `i` (every live layer is in the stack). -/
def position (stack : List UiAdaptor) (i : Nat) (topleft size : Pt) :
    List UiAdaptor :=
  match stack[i]? with
  | none => stack
  | some self =>
    invalidate
      (stack.set i
        { self with dimensions := ⟨topleft, Pt.add topleft size⟩,
                    invalidated := true })
      self.dimensions false

/-- The per-layer effect of the resize loop of `redraw_invalidated` on its
flags: `deferred_resize` is cleared, whether or not a resize callback was
invoked. -/
def clearResizeFlag (ui : UiAdaptor) : UiAdaptor :=
  if ui.deferred_resize then { ui with deferred_resize := false } else ui

/-- The per-layer effect of the redraw loop of `redraw_invalidated` on its
flags: `invalidated` is cleared unconditionally, whether or not a redraw
callback was invoked. -/
def clearInvFlag (ui : UiAdaptor) : UiAdaptor :=
  if ui.invalidated then { ui with invalidated := false } else ui

/-- The resize phase of `redraw_invalidated`: if some layer of the enabled
range `[k, top]` has a pending deferred resize AND a resize callback, run
the resize loop over the enabled range, clearing every pending
`deferred_resize` flag there; otherwise nothing happens. -/
def resizePhase (stack : List UiAdaptor) (k : Nat) : List UiAdaptor :=
  if (stack.drop k).any
      (fun ui => ui.deferred_resize && ui.has_screen_resized_cb) then
    stack.take k ++ (stack.drop k).map clearResizeFlag
  else stack

/-- The redraw phase of `redraw_invalidated`: if some layer of the enabled
range `[k, top]` is invalidated AND has a redraw callback, run the redraw
loop over the enabled range, clearing every `invalidated` flag there;
otherwise nothing happens. -/
def redrawPhase (stack : List UiAdaptor) (k : Nat) : List UiAdaptor :=
  if (stack.drop k).any (fun ui => ui.invalidated && ui.has_redraw_cb) then
    stack.take k ++ (stack.drop k).map clearInvFlag
  else stack

/-- `ui_adaptor::redraw_invalidated`, with callbacks modelled as not
mutating the stack (so the snapshot taken by the source coincides with the
live stack): inert in test mode or on an empty stack; otherwise the first
enabled index is computed once, then the resize phase runs, then the redraw
phase. -/
def redraw_invalidated (test_mode : Bool) (stack : List UiAdaptor) :
    List UiAdaptor :=
  if test_mode || stack.isEmpty then stack
  else
    redrawPhase (resizePhase stack (firstEnabledIdx stack))
      (firstEnabledIdx stack)

/-- `ui_adaptor::redraw`: mark the topmost layer invalidated (if any), then
run `redraw_invalidated`. -/
def redraw (test_mode : Bool) (stack : List UiAdaptor) : List UiAdaptor :=
  let stack1 := match stack.getLast? with
    | none => stack
    | some last =>
      stack.set (stack.length - 1) { last with invalidated := true }
  redraw_invalidated test_mode stack1

/-! ### Basic facts: geometry, searches, and field preservation -/

theorem contains_self (d : Rect) : contains d d = true := by
  simp [contains]

theorem uiFindIdx_nil (p : UiAdaptor → Bool) : uiFindIdx p [] = none := rfl

theorem uiFindIdx_cons (p : UiAdaptor → Bool) (ui : UiAdaptor)
    (rest : List UiAdaptor) :
    uiFindIdx p (ui :: rest) =
      if p ui then some 0 else (uiFindIdx p rest).map (· + 1) := rfl

theorem uiFindIdx_lt_length {p : UiAdaptor → Bool} {stack : List UiAdaptor}
    {i : Nat} (h : uiFindIdx p stack = some i) : i < stack.length := by
  induction stack generalizing i with
  | nil => simp [uiFindIdx_nil] at h
  | cons ui rest ih =>
    rw [uiFindIdx_cons] at h
    by_cases hp : p ui
    · rw [if_pos hp] at h
      injection h with h
      subst h
      simp only [List.length_cons]
      omega
    · rw [if_neg hp, Option.map_eq_some'] at h
      obtain ⟨j, hj, hji⟩ := h
      have hji' : j + 1 = i := hji
      have := ih hj
      simp only [List.length_cons]
      omega

theorem uiFindIdx_found {p : UiAdaptor → Bool} {stack : List UiAdaptor}
    {i : Nat} (h : uiFindIdx p stack = some i) :
    ∃ ui, stack[i]? = some ui ∧ p ui = true := by
  induction stack generalizing i with
  | nil => simp [uiFindIdx_nil] at h
  | cons ui rest ih =>
    rw [uiFindIdx_cons] at h
    by_cases hp : p ui
    · rw [if_pos hp] at h
      injection h with h
      subst h
      exact ⟨ui, by simp, hp⟩
    · rw [if_neg hp, Option.map_eq_some'] at h
      obtain ⟨j, hj, hji⟩ := h
      have hji' : j + 1 = i := hji
      subst hji'
      obtain ⟨v, hv, hpv⟩ := ih hj
      refine ⟨v, ?_, hpv⟩
      simpa using hv

theorem uiFindIdx_congr {p : UiAdaptor → Bool} {s s' : List UiAdaptor}
    (h : s.map p = s'.map p) : uiFindIdx p s = uiFindIdx p s' := by
  induction s generalizing s' with
  | nil =>
    cases s' with
    | nil => rfl
    | cons b rest' => simp at h
  | cons a rest ih =>
    cases s' with
    | nil => simp at h
    | cons b rest' =>
      simp only [List.map_cons, List.cons.injEq] at h
      obtain ⟨hab, hrest⟩ := h
      simp only [uiFindIdx, hab, ih hrest]

theorem firstEnabledIdx_le_length (stack : List UiAdaptor) :
    firstEnabledIdx stack ≤ stack.length := by
  unfold firstEnabledIdx
  split <;> omega

theorem firstEnabledIdx_congr {s s' : List UiAdaptor}
    (h : s.map (·.disabling_uis_below) = s'.map (·.disabling_uis_below)) :
    firstEnabledIdx s = firstEnabledIdx s' := by
  have hlen : s.length = s'.length := by
    simpa using congrArg List.length h
  have hrev : s.reverse.map (·.disabling_uis_below)
      = s'.reverse.map (·.disabling_uis_below) := by
    rw [List.map_reverse, List.map_reverse, h]
  unfold firstEnabledIdx
  rw [uiFindIdx_congr hrev, hlen]

theorem layerKey_fields {a b : UiAdaptor} (h : layerKey a = layerKey b) :
    a.id = b.id ∧ a.dimensions = b.dimensions ∧
    a.disabling_uis_below = b.disabling_uis_below ∧
    a.deferred_resize = b.deferred_resize ∧
    a.has_redraw_cb = b.has_redraw_cb ∧
    a.has_screen_resized_cb = b.has_screen_resized_cb := by
  simpa [layerKey, Prod.ext_iff] using h

theorem key_getElem?_congr {s s' : List UiAdaptor}
    (h : s.map layerKey = s'.map layerKey) (n : Nat) :
    (s[n]?).map layerKey = (s'[n]?).map layerKey := by
  have := congrArg (fun l => l[n]?) h
  simpa [List.getElem?_map] using this

theorem length_eq_of_key {s s' : List UiAdaptor}
    (h : s.map layerKey = s'.map layerKey) : s.length = s'.length := by
  simpa using congrArg List.length h

theorem dimsAt_congr {s s' : List UiAdaptor}
    (h : s.map layerKey = s'.map layerKey) (n : Nat) :
    dimsAt s n = dimsAt s' n := by
  have h2 := key_getElem?_congr h n
  unfold dimsAt
  cases hs : s[n]? with
  | none =>
    cases hs' : s'[n]? with
    | none => rfl
    | some b => rw [hs, hs'] at h2; simp at h2
  | some a =>
    cases hs' : s'[n]? with
    | none => rw [hs, hs'] at h2; simp at h2
    | some b =>
      rw [hs, hs'] at h2
      simp only [Option.map_some', Option.some.injEq] at h2
      simp [(layerKey_fields h2).2.1]

theorem map_pred_congr_of_key {s s' : List UiAdaptor}
    (h : s.map layerKey = s'.map layerKey) (p : UiAdaptor → Bool)
    (hp : ∀ a b, layerKey a = layerKey b → p a = p b) :
    s.map p = s'.map p := by
  apply List.ext_getElem?
  intro n
  have h2 := key_getElem?_congr h n
  simp only [List.getElem?_map]
  cases hs : s[n]? with
  | none =>
    cases hs' : s'[n]? with
    | none => rfl
    | some b => rw [hs, hs'] at h2; simp at h2
  | some a =>
    cases hs' : s'[n]? with
    | none => rw [hs, hs'] at h2; simp at h2
    | some b =>
      rw [hs, hs'] at h2
      simp only [Option.map_some', Option.some.injEq] at h2
      simp [hp _ _ h2]

theorem map_layerKey_set {es : List UiAdaptor} {i : Nat} {a : UiAdaptor}
    (h : ∀ b, es[i]? = some b → layerKey a = layerKey b) :
    (es.set i a).map layerKey = es.map layerKey := by
  apply List.ext_getElem?
  intro n
  simp only [List.getElem?_map]
  by_cases hn : i = n
  · subst hn
    cases hb : es[i]? with
    | none =>
      have hle : es.length ≤ i := by
        simpa using List.getElem?_eq_none_iff.mp hb
      rw [List.set_eq_of_length_le hle, hb]
    | some b =>
      by_cases hlt : i < es.length
      · rw [List.getElem?_set_self hlt]
        simp [h b hb]
      · rw [List.getElem?_eq_none (Nat.le_of_not_lt hlt)] at hb
        cases hb
  · rw [List.getElem?_set_ne hn]

/-! ### Rule characterizations -/

theorem layerKey_rule1 (up lo : UiAdaptor) : layerKey (rule1 up lo) = layerKey up := by
  unfold rule1
  split <;> rfl

theorem layerKey_rule2 (up' lo : UiAdaptor) : layerKey (rule2 up' lo) = layerKey lo := by
  unfold rule2
  split <;> rfl

theorem rule1_inv (up lo : UiAdaptor) :
    (rule1 up lo).invalidated =
      (up.invalidated || (lo.invalidated && overlap up.dimensions lo.dimensions)) := by
  unfold rule1
  cases hui : up.invalidated <;> cases hli : lo.invalidated <;>
    cases hov : overlap up.dimensions lo.dimensions <;> simp [hui, hli, hov]

theorem rule2_inv (up' lo : UiAdaptor) :
    (rule2 up' lo).invalidated =
      (lo.invalidated && !(up'.invalidated && contains up'.dimensions lo.dimensions)) := by
  unfold rule2
  cases hui : up'.invalidated <;> cases hli : lo.invalidated <;>
    cases hc : contains up'.dimensions lo.dimensions <;> simp [hui, hli, hc]

theorem rule1_dims (up lo : UiAdaptor) : (rule1 up lo).dimensions = up.dimensions :=
  (layerKey_fields (layerKey_rule1 up lo)).2.1

theorem rule2_dims (up' lo : UiAdaptor) : (rule2 up' lo).dimensions = lo.dimensions :=
  (layerKey_fields (layerKey_rule2 up' lo)).2.1

/-! ### pairStep: unfolding and pointwise behavior -/

theorem pairStep_eq_some {es : List UiAdaptor} {u l : Nat} {up lo : UiAdaptor}
    (hu : es[u]? = some up) (hl : es[l]? = some lo) :
    pairStep es u l = (es.set u (rule1 up lo)).set l (rule2 (rule1 up lo) lo) := by
  unfold pairStep
  rw [hu, hl]

theorem pairStep_eq_of_none_left {es : List UiAdaptor} {u l : Nat}
    (hu : es[u]? = none) : pairStep es u l = es := by
  unfold pairStep
  rw [hu]

theorem pairStep_eq_of_none_right {es : List UiAdaptor} {u l : Nat}
    (hl : es[l]? = none) : pairStep es u l = es := by
  unfold pairStep
  rw [hl]
  cases es[u]? <;> rfl

theorem pairStep_map_key (es : List UiAdaptor) (u l : Nat) :
    (pairStep es u l).map layerKey = es.map layerKey := by
  cases hu : es[u]? with
  | none => rw [pairStep_eq_of_none_left hu]
  | some up =>
    cases hl : es[l]? with
    | none => rw [pairStep_eq_of_none_right hl]
    | some lo =>
      rw [pairStep_eq_some hu hl]
      rw [map_layerKey_set, map_layerKey_set]
      · intro b hb
        rw [hu] at hb
        injection hb with hb
        subst hb
        exact layerKey_rule1 up lo
      · intro b hb
        by_cases hul : u = l
        · subst hul
          by_cases hlt : u < es.length
          · rw [List.getElem?_set_self hlt] at hb
            injection hb with hb
            subst hb
            have heq : up = lo := by
              rw [hu] at hl
              injection hl
            rw [layerKey_rule2, layerKey_rule1, heq]
          · rw [List.set_eq_of_length_le (Nat.le_of_not_lt hlt),
              List.getElem?_eq_none (Nat.le_of_not_lt hlt)] at hb
            cases hb
        · rw [List.getElem?_set_ne hul, hl] at hb
          injection hb with hb
          subst hb
          exact layerKey_rule2 _ lo

theorem lt_length_of_getElem? {es : List UiAdaptor} {n : Nat} {a : UiAdaptor}
    (h : es[n]? = some a) : n < es.length := by
  by_cases hlt : n < es.length
  · exact hlt
  · rw [List.getElem?_eq_none (Nat.le_of_not_lt hlt)] at h
    cases h

theorem dimsAt_eq {es : List UiAdaptor} {n : Nat} {a : UiAdaptor}
    (h : es[n]? = some a) : dimsAt es n = a.dimensions := by
  unfold dimsAt
  rw [h]
  rfl

theorem invAt_eq {es : List UiAdaptor} {n : Nat} {a : UiAdaptor}
    (h : es[n]? = some a) : invAt es n = some a.invalidated := by
  unfold invAt
  rw [h]
  rfl

theorem invAt_some {es : List UiAdaptor} {n : Nat} {b : Bool}
    (h : invAt es n = some b) :
    ∃ a, es[n]? = some a ∧ a.invalidated = b := by
  unfold invAt at h
  cases hn : es[n]? with
  | none => rw [hn] at h; cases h
  | some a =>
    rw [hn] at h
    exact ⟨a, rfl, by simpa using h⟩

theorem pairStep_getElem?_ne {es : List UiAdaptor} {u l n : Nat}
    (hu : n ≠ u) (hl : n ≠ l) : (pairStep es u l)[n]? = es[n]? := by
  cases h1 : es[u]? with
  | none => rw [pairStep_eq_of_none_left h1]
  | some up =>
    cases h2 : es[l]? with
    | none => rw [pairStep_eq_of_none_right h2]
    | some lo =>
      rw [pairStep_eq_some h1 h2, List.getElem?_set_ne (Ne.symm hl),
        List.getElem?_set_ne (Ne.symm hu)]

theorem pairStep_inv_false {es : List UiAdaptor} {u l n : Nat}
    (h : invAt es n = some false) (hnu : n ≠ u) :
    invAt (pairStep es u l) n = some false := by
  cases h1 : es[u]? with
  | none => rw [pairStep_eq_of_none_left h1]; exact h
  | some up =>
    cases h2 : es[l]? with
    | none => rw [pairStep_eq_of_none_right h2]; exact h
    | some lo =>
      rw [pairStep_eq_some h1 h2]
      by_cases hnl : n = l
      · subst hnl
        have hb : n < es.length := lt_length_of_getElem? h2
        have hlo : lo.invalidated = false := by
          rw [invAt_eq h2] at h
          simpa using h
        unfold invAt
        rw [List.getElem?_set_self (by simpa using hb)]
        simp [rule2_inv, hlo]
      · unfold invAt
        rw [List.getElem?_set_ne (Ne.symm hnl),
          List.getElem?_set_ne (Ne.symm hnu)]
        exact h

theorem pairStep_inv_true {es : List UiAdaptor} {u l n : Nat}
    (h : invAt es n = some true)
    (hc : n = l → contains (dimsAt es u) (dimsAt es n) = false) :
    invAt (pairStep es u l) n = some true := by
  cases h1 : es[u]? with
  | none => rw [pairStep_eq_of_none_left h1]; exact h
  | some up =>
    cases h2 : es[l]? with
    | none => rw [pairStep_eq_of_none_right h2]; exact h
    | some lo =>
      rw [pairStep_eq_some h1 h2]
      by_cases hnl : n = l
      · subst hnl
        have hb : n < es.length := lt_length_of_getElem? h2
        have hlo : lo.invalidated = true := by
          rw [invAt_eq h2] at h
          simpa using h
        have hcf : contains up.dimensions lo.dimensions = false := by
          have h3 := hc rfl
          rw [dimsAt_eq h1, dimsAt_eq h2] at h3
          exact h3
        unfold invAt
        rw [List.getElem?_set_self (by simpa using hb)]
        simp [rule2_inv, rule1_dims, hlo, hcf]
      · by_cases hnu : n = u
        · subst hnu
          have hb : n < es.length := lt_length_of_getElem? h1
          have hup : up.invalidated = true := by
            rw [invAt_eq h1] at h
            simpa using h
          unfold invAt
          rw [List.getElem?_set_ne (Ne.symm hnl),
            List.getElem?_set_self (by simpa using hb)]
          simp [rule1_inv, hup]
        · unfold invAt
          rw [List.getElem?_set_ne (Ne.symm hnl),
            List.getElem?_set_ne (Ne.symm hnu)]
          exact h

theorem pairStep_fires_rule1 {es : List UiAdaptor} {u l : Nat}
    (hne : l ≠ u) (hl : invAt es l = some true)
    (hov : overlap (dimsAt es u) (dimsAt es l) = true)
    (hu : u < es.length) :
    invAt (pairStep es u l) u = some true := by
  have h1 : es[u]? = some es[u] := List.getElem?_eq_getElem hu
  obtain ⟨lo, h2, hlo⟩ := invAt_some hl
  rw [pairStep_eq_some h1 h2]
  have hov' : overlap es[u].dimensions lo.dimensions = true := by
    rw [dimsAt_eq h1, dimsAt_eq h2] at hov
    exact hov
  unfold invAt
  rw [List.getElem?_set_ne hne, List.getElem?_set_self (by simpa using hu)]
  simp [rule1_inv, hlo, hov']

theorem pairStep_fires_rule2 {es : List UiAdaptor} {u l : Nat}
    (hu : invAt es u = some true)
    (hcont : contains (dimsAt es u) (dimsAt es l) = true)
    (hl : l < es.length) :
    invAt (pairStep es u l) l = some false := by
  obtain ⟨up, h1, hup⟩ := invAt_some hu
  have h2 : es[l]? = some es[l] := List.getElem?_eq_getElem hl
  rw [pairStep_eq_some h1 h2]
  have hcont' : contains up.dimensions es[l].dimensions = true := by
    rw [dimsAt_eq h1, dimsAt_eq h2] at hcont
    exact hcont
  unfold invAt
  rw [List.getElem?_set_self (by simpa using hl)]
  simp [rule2_inv, rule1_inv, rule1_dims, hup, hcont']

/-! ### Lifting through the inner and outer folds of the pass -/

theorem foldPair_map_key (ls : List Nat) (es : List UiAdaptor) (u : Nat) :
    (ls.foldl (fun acc l => pairStep acc u l) es).map layerKey
      = es.map layerKey := by
  induction ls generalizing es with
  | nil => rfl
  | cons l rest ih => rw [List.foldl_cons, ih, pairStep_map_key]

theorem innerLoop_map_key (es : List UiAdaptor) (u : Nat) :
    (innerLoop es u).map layerKey = es.map layerKey :=
  foldPair_map_key _ _ _

theorem foldInner_map_key (us : List Nat) (es : List UiAdaptor) :
    (us.foldl innerLoop es).map layerKey = es.map layerKey := by
  induction us generalizing es with
  | nil => rfl
  | cons u rest ih => rw [List.foldl_cons, ih, innerLoop_map_key]

theorem reconcileSeg_map_key (es : List UiAdaptor) :
    (reconcileSeg es).map layerKey = es.map layerKey :=
  foldInner_map_key _ _

theorem foldPair_inv_false {u n : Nat} (ls : List Nat) {es : List UiAdaptor}
    (h : invAt es n = some false) (hnu : n ≠ u) :
    invAt (ls.foldl (fun acc l => pairStep acc u l) es) n = some false := by
  induction ls generalizing es with
  | nil => exact h
  | cons l rest ih => exact ih (pairStep_inv_false h hnu)

theorem foldPair_inv_true {u n : Nat} (ls : List Nat) {es : List UiAdaptor}
    (h : invAt es n = some true)
    (hc : n ∈ ls → contains (dimsAt es u) (dimsAt es n) = false) :
    invAt (ls.foldl (fun acc l => pairStep acc u l) es) n = some true := by
  induction ls generalizing es with
  | nil => exact h
  | cons l rest ih =>
    rw [List.foldl_cons]
    have hkey := pairStep_map_key es u l
    apply ih
    · exact pairStep_inv_true h (fun hnl => hc (by rw [hnl]; simp))
    · intro hmem
      rw [dimsAt_congr hkey u, dimsAt_congr hkey n]
      exact hc (by simp [hmem])

theorem innerLoop_inv_false {es : List UiAdaptor} {u n : Nat}
    (h : invAt es n = some false) (hnu : n ≠ u) :
    invAt (innerLoop es u) n = some false :=
  foldPair_inv_false _ h hnu

theorem innerLoop_inv_true {es : List UiAdaptor} {u n : Nat}
    (h : invAt es n = some true)
    (hc : n < u → contains (dimsAt es u) (dimsAt es n) = false) :
    invAt (innerLoop es u) n = some true :=
  foldPair_inv_true _ h (fun hmem => hc (List.mem_range.mp hmem))

theorem foldInner_inv_false (us : List Nat) {es : List UiAdaptor} {n : Nat}
    (h : invAt es n = some false) (hn : n ∉ us) :
    invAt (us.foldl innerLoop es) n = some false := by
  induction us generalizing es with
  | nil => exact h
  | cons u rest ih =>
    have h1 : n ≠ u := fun e => hn (by simp [e])
    have h2 : n ∉ rest := fun hm => hn (by simp [hm])
    exact ih (innerLoop_inv_false h h1) h2

theorem foldInner_inv_true (us : List Nat) {es : List UiAdaptor} {n : Nat}
    (h : invAt es n = some true)
    (hc : ∀ u ∈ us, n < u → contains (dimsAt es u) (dimsAt es n) = false) :
    invAt (us.foldl innerLoop es) n = some true := by
  induction us generalizing es with
  | nil => exact h
  | cons u rest ih =>
    rw [List.foldl_cons]
    have hkey := innerLoop_map_key es u
    apply ih
    · exact innerLoop_inv_true h (fun hnu => hc u (by simp) hnu)
    · intro v hv hnv
      rw [dimsAt_congr hkey v, dimsAt_congr hkey n]
      exact hc v (by simp [hv]) hnv

theorem foldPair_getElem? (ls : List Nat) {es : List UiAdaptor} {u n : Nat}
    (hnu : n ≠ u) (hnl : n ∉ ls) :
    (ls.foldl (fun acc l => pairStep acc u l) es)[n]? = es[n]? := by
  induction ls generalizing es with
  | nil => rfl
  | cons l rest ih =>
    have h1 : n ≠ l := fun e => hnl (by simp [e])
    have h2 : n ∉ rest := fun hm => hnl (by simp [hm])
    rw [List.foldl_cons, ih h2, pairStep_getElem?_ne hnu h1]

theorem innerLoop_getElem?_high {es : List UiAdaptor} {u n : Nat} (h : u < n) :
    (innerLoop es u)[n]? = es[n]? :=
  foldPair_getElem? _ (by omega) (fun hm => by have := List.mem_range.mp hm; omega)

theorem foldInner_getElem? (us : List Nat) {es : List UiAdaptor} {n : Nat}
    (h : ∀ u ∈ us, u < n) :
    (us.foldl innerLoop es)[n]? = es[n]? := by
  induction us generalizing es with
  | nil => rfl
  | cons u rest ih =>
    rw [List.foldl_cons, ih (fun v hv => h v (by simp [hv])),
      innerLoop_getElem?_high (h u (by simp))]

theorem range_split_at {n m : Nat} (h : m < n) :
    List.range n = List.range m
      ++ m :: ((List.range (n - (m + 1))).map (fun x => m + 1 + x)) := by
  obtain ⟨r, rfl⟩ : ∃ r, n = m + 1 + r := ⟨n - (m + 1), by omega⟩
  rw [Nat.add_sub_cancel_left, List.range_add, List.range_succ]
  simp

/-! ### Behavior of one full sweep over the enabled segment -/

theorem reconcileSeg_inv_true {es : List UiAdaptor} {n : Nat}
    (h : invAt es n = some true)
    (hc : ∀ j, n < j → j < es.length →
      contains (dimsAt es j) (dimsAt es n) = false) :
    invAt (reconcileSeg es) n = some true :=
  foldInner_inv_true _ h (fun u hu hnu => hc u hnu (List.mem_range.mp hu))

theorem reconcileSeg_cascade {es : List UiAdaptor} {l u : Nat}
    (hlu : l < u) (hu : u < es.length)
    (hl_inv : invAt es l = some true)
    (hov : overlap (dimsAt es u) (dimsAt es l) = true)
    (hLc : ∀ j, l < j → j < es.length →
      contains (dimsAt es j) (dimsAt es l) = false)
    (hUc : ∀ j, u < j → j < es.length →
      contains (dimsAt es j) (dimsAt es u) = false) :
    invAt (reconcileSeg es) u = some true := by
  unfold reconcileSeg
  rw [range_split_at hu, List.foldl_append, List.foldl_cons]
  set A := (List.range u).foldl innerLoop es with hA
  have hkeyA : A.map layerKey = es.map layerKey := foldInner_map_key _ _
  have hlenA : A.length = es.length := length_eq_of_key hkeyA
  have hAl_inv : invAt A l = some true := by
    apply foldInner_inv_true _ hl_inv
    intro v hv hlv
    exact hLc v hlv (by have := List.mem_range.mp hv; omega)
  -- the inner loop of outer iteration u fires rule 1 at the pair (u, l)
  have hBu : invAt (innerLoop A u) u = some true := by
    unfold innerLoop
    rw [range_split_at hlu, List.foldl_append, List.foldl_cons]
    set B1 := (List.range l).foldl (fun acc x => pairStep acc u x) A with hB1
    have hkeyB1 : B1.map layerKey = A.map layerKey := foldPair_map_key _ _ _
    have hdims : ∀ i, dimsAt B1 i = dimsAt es i := fun i => by
      rw [dimsAt_congr hkeyB1, dimsAt_congr hkeyA]
    have hB1l : invAt B1 l = some true :=
      foldPair_inv_true _ hAl_inv
        (fun hm => absurd (List.mem_range.mp hm) (lt_irrefl l))
    have hB2u : invAt (pairStep B1 u l) u = some true := by
      apply pairStep_fires_rule1 (by omega) hB1l
      · rw [hdims u, hdims l]
        exact hov
      · rw [length_eq_of_key hkeyB1, hlenA]
        exact hu
    apply foldPair_inv_true _ hB2u
    intro hm
    simp only [List.mem_map, List.mem_range] at hm
    obtain ⟨x, hx, hxx⟩ := hm
    omega
  -- the flag stays set through the outer iterations above u
  apply foldInner_inv_true _ hBu
  intro v hv hnv
  have hkeyB : (innerLoop A u).map layerKey = es.map layerKey := by
    rw [innerLoop_map_key, hkeyA]
  rw [dimsAt_congr hkeyB v, dimsAt_congr hkeyB u]
  apply hUc v hnv
  simp only [List.mem_map, List.mem_range] at hv
  obtain ⟨x, hx, hxx⟩ := hv
  omega

theorem reconcileSeg_occlusion {es : List UiAdaptor} {l u : Nat}
    (hlu : l < u) (hu : u < es.length)
    (hu_inv : invAt es u = some true)
    (hcont : contains (dimsAt es u) (dimsAt es l) = true) :
    invAt (reconcileSeg es) l = some false := by
  unfold reconcileSeg
  rw [range_split_at hu, List.foldl_append, List.foldl_cons]
  set A := (List.range u).foldl innerLoop es with hA
  have hkeyA : A.map layerKey = es.map layerKey := foldInner_map_key _ _
  have hlenA : A.length = es.length := length_eq_of_key hkeyA
  have hAu : A[u]? = es[u]? :=
    foldInner_getElem? _ (fun v hv => List.mem_range.mp hv)
  have hAu_inv : invAt A u = some true := by
    unfold invAt
    rw [hAu]
    exact hu_inv
  have hl_lt : l < A.length := by omega
  obtain ⟨b, hAl⟩ : ∃ b, invAt A l = some b :=
    ⟨A[l].invalidated, invAt_eq (List.getElem?_eq_getElem hl_lt)⟩
  have hinner : invAt (innerLoop A u) l = some false := by
    unfold innerLoop
    rw [range_split_at hlu, List.foldl_append, List.foldl_cons]
    set B1 := (List.range l).foldl (fun acc x => pairStep acc u x) A with hB1
    have hkeyB1 : B1.map layerKey = A.map layerKey := foldPair_map_key _ _ _
    cases b with
    | false =>
      have hB1l : invAt B1 l = some false :=
        foldPair_inv_false _ hAl (by omega)
      exact foldPair_inv_false _ (pairStep_inv_false hB1l (by omega)) (by omega)
    | true =>
      have hB1l : invAt B1 l = some true :=
        foldPair_inv_true _ hAl
          (fun hm => absurd (List.mem_range.mp hm) (lt_irrefl l))
      have hB1u : invAt B1 u = some true :=
        foldPair_inv_true _ hAu_inv
          (fun hm => by have := List.mem_range.mp hm; omega)
      have hdims : ∀ i, dimsAt B1 i = dimsAt es i := fun i => by
        rw [dimsAt_congr hkeyB1, dimsAt_congr hkeyA]
      have hB2l : invAt (pairStep B1 u l) l = some false := by
        apply pairStep_fires_rule2 hB1u
        · rw [hdims u, hdims l]
          exact hcont
        · rw [length_eq_of_key hkeyB1, hlenA]
          omega
      exact foldPair_inv_false _ hB2l (by omega)
  apply foldInner_inv_false _ hinner
  intro hm
  simp only [List.mem_map, List.mem_range] at hm
  obtain ⟨x, hx, hxx⟩ := hm
  omega

/-! ### Stack-level facts about the consistency pass and the entry points -/

theorem firstEnabledIdx_of_key {s s' : List UiAdaptor}
    (h : s.map layerKey = s'.map layerKey) :
    firstEnabledIdx s = firstEnabledIdx s' :=
  firstEnabledIdx_congr
    (map_pred_congr_of_key h _ (fun a b hab => by
      rw [(layerKey_fields hab).2.2.1]))

theorem icao_map_key (stack : List UiAdaptor) :
    (invalidation_consistency_and_optimization stack).map layerKey
      = stack.map layerKey := by
  unfold invalidation_consistency_and_optimization
  rw [List.map_append, reconcileSeg_map_key, ← List.map_append,
    List.take_append_drop]

theorem icao_getElem?_low {stack : List UiAdaptor} {i : Nat}
    (h : i < firstEnabledIdx stack) :
    (invalidation_consistency_and_optimization stack)[i]? = stack[i]? := by
  unfold invalidation_consistency_and_optimization
  have hk := firstEnabledIdx_le_length stack
  rw [List.getElem?_append_left (by simp [List.length_take]; omega),
    List.getElem?_take_of_lt h]

theorem icao_getElem?_high {stack : List UiAdaptor} {i : Nat}
    (h : firstEnabledIdx stack ≤ i) :
    (invalidation_consistency_and_optimization stack)[i]? =
      (reconcileSeg (stack.drop (firstEnabledIdx stack)))[i - firstEnabledIdx stack]? := by
  unfold invalidation_consistency_and_optimization
  have hk := firstEnabledIdx_le_length stack
  have hlen : (stack.take (firstEnabledIdx stack)).length = firstEnabledIdx stack := by
    rw [List.length_take]
    omega
  rw [List.getElem?_append_right (by rw [hlen]; exact h), hlen]

theorem invAt_icao_low {stack : List UiAdaptor} {i : Nat}
    (h : i < firstEnabledIdx stack) :
    invAt (invalidation_consistency_and_optimization stack) i = invAt stack i := by
  unfold invAt
  rw [icao_getElem?_low h]

theorem invAt_icao_high {stack : List UiAdaptor} {i : Nat}
    (h : firstEnabledIdx stack ≤ i) :
    invAt (invalidation_consistency_and_optimization stack) i =
      invAt (reconcileSeg (stack.drop (firstEnabledIdx stack)))
        (i - firstEnabledIdx stack) := by
  unfold invAt
  rw [icao_getElem?_high h]

theorem invAt_drop (stack : List UiAdaptor) (k i : Nat) :
    invAt (stack.drop k) i = invAt stack (k + i) := by
  unfold invAt
  rw [List.getElem?_drop]

theorem dimsAt_drop (stack : List UiAdaptor) (k i : Nat) :
    dimsAt (stack.drop k) i = dimsAt stack (k + i) := by
  unfold dimsAt
  rw [List.getElem?_drop]

theorem any_contains_iff {stack : List UiAdaptor} {i : Nat} {d : Rect} :
    (stack.drop (i + 1)).any (fun upper => contains upper.dimensions d) = true ↔
    ∃ j, i < j ∧ j < stack.length ∧ contains (dimsAt stack j) d = true := by
  rw [List.any_eq_true]
  constructor
  · rintro ⟨x, hx, hpx⟩
    obtain ⟨m, hm⟩ := List.mem_iff_getElem?.mp hx
    rw [List.getElem?_drop] at hm
    refine ⟨i + 1 + m, by omega, lt_length_of_getElem? hm, ?_⟩
    rw [dimsAt_eq hm]
    exact hpx
  · rintro ⟨j, hij, hjl, hcj⟩
    have ha : stack[j]? = some stack[j] := List.getElem?_eq_getElem hjl
    refine ⟨stack[j], ?_, ?_⟩
    · apply List.mem_iff_getElem?.mpr
      refine ⟨j - (i + 1), ?_⟩
      rw [List.getElem?_drop]
      have : i + 1 + (j - (i + 1)) = j := by omega
      rw [this]
      exact ha
    · rw [dimsAt_eq ha] at hcj
      exact hcj

theorem not_any_contains {stack : List UiAdaptor} {i : Nat} {d : Rect}
    (h : ¬ (stack.drop (i + 1)).any
      (fun upper => contains upper.dimensions d) = true) :
    ∀ j, i < j → j < stack.length → contains (dimsAt stack j) d = false := by
  intro j h1 h2
  by_contra hc
  apply h
  rw [any_contains_iff]
  refine ⟨j, h1, h2, ?_⟩
  revert hc
  cases contains (dimsAt stack j) d <;> simp

theorem invalidate_ui_eq_none {stack : List UiAdaptor} {selfId : Nat}
    (hfind : uiFindIdx (fun ui => ui.id == selfId) stack = none) :
    invalidate_ui stack selfId = stack := by
  unfold invalidate_ui
  rw [hfind]

theorem invalidate_ui_eq_some {stack : List UiAdaptor} {selfId : Nat}
    {i : Nat} {self : UiAdaptor}
    (hfind : uiFindIdx (fun ui => ui.id == selfId) stack = some i)
    (hget : stack[i]? = some self) :
    invalidate_ui stack selfId =
      if self.invalidated then stack
      else if (stack.drop (i + 1)).any
          (fun upper => contains upper.dimensions self.dimensions) then stack
      else
        invalidation_consistency_and_optimization
          (stack.set i { self with invalidated := true }) := by
  simp only [invalidate_ui, hfind, hget]

theorem icao_set_inv_true {stack : List UiAdaptor} {i : Nat} {self : UiAdaptor}
    (hget : stack[i]? = some self)
    (hno : ∀ j, i < j → j < stack.length →
      contains (dimsAt stack j) self.dimensions = false) :
    invAt (invalidation_consistency_and_optimization
      (stack.set i { self with invalidated := true })) i = some true := by
  have hkey : (stack.set i { self with invalidated := true }).map layerKey
      = stack.map layerKey :=
    map_layerKey_set (fun b hb => by
      rw [hget] at hb
      injection hb with hb
      subst hb
      rfl)
  have hkidx : firstEnabledIdx (stack.set i { self with invalidated := true })
      = firstEnabledIdx stack := firstEnabledIdx_of_key hkey
  have hlen : i < stack.length := lt_length_of_getElem? hget
  have hset_i : (stack.set i { self with invalidated := true })[i]?
      = some { self with invalidated := true } :=
    List.getElem?_set_self (by simpa using hlen)
  by_cases hik : i < firstEnabledIdx stack
  · rw [invAt_icao_low (by rw [hkidx]; exact hik), invAt_eq hset_i]
  · rw [invAt_icao_high (by rw [hkidx]; omega), hkidx]
    apply reconcileSeg_inv_true
    · rw [invAt_drop]
      have he : firstEnabledIdx stack + (i - firstEnabledIdx stack) = i := by
        omega
      rw [he, invAt_eq hset_i]
    · intro j' h1 h2
      rw [dimsAt_drop, dimsAt_drop, dimsAt_congr hkey, dimsAt_congr hkey]
      have he : firstEnabledIdx stack + (i - firstEnabledIdx stack) = i := by
        omega
      rw [he, dimsAt_eq hget]
      have hjlen : firstEnabledIdx stack + j' < stack.length := by
        simp only [List.length_drop, List.length_set] at h2
        omega
      exact hno _ (by omega) hjlen

theorem update_inv_self (a : UiAdaptor) :
    { a with invalidated := a.invalidated } = a := by
  cases a
  rfl

theorem markFn_eq (rect : Rect) (a : UiAdaptor) :
    (if !a.invalidated && overlap a.dimensions rect then
        { a with invalidated := true } else a)
      = { a with invalidated := a.invalidated || overlap a.dimensions rect } := by
  obtain ⟨i, d, inv, dis, dr, rc, sc⟩ := a
  cases inv <;> cases hov : overlap d rect <;> simp [hov]

/-! ### Claim C1 -/

/-- Concrete three-layer stack refuting claim C1 as stated: layer 0 (lower,
invalidated) and layer 1 (upper, not invalidated) overlap with neither
containing the other, but layer 2 is invalidated and contains layer 0. -/
def c1Stack : List UiAdaptor :=
  [⟨0, ⟨⟨0, 0⟩, ⟨2, 2⟩⟩, true, false, false, false, false⟩,
   ⟨1, ⟨⟨1, 0⟩, ⟨3, 2⟩⟩, false, false, false, false, false⟩,
   ⟨2, ⟨⟨-1, -1⟩, ⟨2, 3⟩⟩, true, false, false, false, false⟩]

/-- Claim C1, counterexample: in `c1Stack` the pair (lower 0, upper 1) lies
in the enabled range and satisfies every premise of the claim (upper not
invalidated, lower invalidated, rectangles overlap, neither contains the
other), yet the consistency pass ends with the lower layer's flag cleared
(layer 2, invalidated and containing layer 0, occludes it), contradicting
"lower remains invalidated". -/
theorem claim1_counterexample :
    firstEnabledIdx c1Stack = 0 ∧
    invAt c1Stack 1 = some false ∧
    invAt c1Stack 0 = some true ∧
    overlap (dimsAt c1Stack 1) (dimsAt c1Stack 0) = true ∧
    contains (dimsAt c1Stack 1) (dimsAt c1Stack 0) = false ∧
    contains (dimsAt c1Stack 0) (dimsAt c1Stack 1) = false ∧
    invAt (invalidation_consistency_and_optimization c1Stack) 0 = some false := by
  decide

/-- Claim C1 (amended): for a pair (lower `l`, upper `u`) in the enabled
range with upper not invalidated, lower invalidated and rectangles
overlapping with neither containing the other, and additionally no layer
higher in the enabled range containing the lower or the upper rectangle,
the pass sets upper invalidated and leaves lower invalidated. -/
theorem claim1_cascade (stack : List UiAdaptor) (l u : Nat)
    (hk : firstEnabledIdx stack ≤ l) (hlu : l < u) (hu : u < stack.length)
    (hupper : invAt stack u = some false)
    (hlower : invAt stack l = some true)
    (hov : overlap (dimsAt stack u) (dimsAt stack l) = true)
    (hnc1 : contains (dimsAt stack u) (dimsAt stack l) = false)
    (hnc2 : contains (dimsAt stack l) (dimsAt stack u) = false)
    (hLc : ∀ j, l < j → j < stack.length →
      contains (dimsAt stack j) (dimsAt stack l) = false)
    (hUc : ∀ j, u < j → j < stack.length →
      contains (dimsAt stack j) (dimsAt stack u) = false) :
    invAt (invalidation_consistency_and_optimization stack) u = some true ∧
    invAt (invalidation_consistency_and_optimization stack) l = some true := by
  have hklen := firstEnabledIdx_le_length stack
  have hel : firstEnabledIdx stack + (l - firstEnabledIdx stack) = l := by omega
  have heu : firstEnabledIdx stack + (u - firstEnabledIdx stack) = u := by omega
  constructor
  · rw [invAt_icao_high (by omega)]
    refine @reconcileSeg_cascade _ (l - firstEnabledIdx stack)
      (u - firstEnabledIdx stack) (by omega) ?_ ?_ ?_ ?_ ?_
    · simp only [List.length_drop]
      omega
    · rw [invAt_drop, hel]
      exact hlower
    · rw [dimsAt_drop, dimsAt_drop, hel, heu]
      exact hov
    · intro j h1 h2
      simp only [List.length_drop] at h2
      rw [dimsAt_drop, dimsAt_drop, hel]
      exact hLc _ (by omega) (by omega)
    · intro j h1 h2
      simp only [List.length_drop] at h2
      rw [dimsAt_drop, dimsAt_drop, heu]
      exact hUc _ (by omega) (by omega)
  · rw [invAt_icao_high hk]
    apply reconcileSeg_inv_true
    · rw [invAt_drop, hel]
      exact hlower
    · intro j h1 h2
      simp only [List.length_drop] at h2
      rw [dimsAt_drop, dimsAt_drop, hel]
      exact hLc _ (by omega) (by omega)

/-- Concrete two-layer stack on which the amended claim C1 is instantiated. -/
def c1WitStack : List UiAdaptor :=
  [⟨0, ⟨⟨0, 0⟩, ⟨2, 2⟩⟩, true, false, false, false, false⟩,
   ⟨1, ⟨⟨1, 0⟩, ⟨3, 2⟩⟩, false, false, false, false, false⟩]

/-- Witness for the amended claim C1 at a concrete two-layer stack. -/
theorem claim1_cascade_witness :
    invAt (invalidation_consistency_and_optimization c1WitStack) 1 = some true ∧
    invAt (invalidation_consistency_and_optimization c1WitStack) 0 = some true := by
  apply claim1_cascade c1WitStack 0 1
  · decide
  · decide
  · decide
  · decide
  · decide
  · decide
  · decide
  · decide
  · intro j h1 h2
    have hj : j = 1 := by
      have : j < 2 := by simpa [c1WitStack] using h2
      omega
    subst hj
    decide
  · intro j h1 h2
    have : j < 2 := by simpa [c1WitStack] using h2
    omega

/-! ### Claim C2 -/

/-- Concrete three-layer chain refuting claim C2 as stated: all three layers
invalidated, layer 1 contains layer 0, layer 2 contains layer 1. -/
def c2Stack : List UiAdaptor :=
  [⟨0, ⟨⟨0, 0⟩, ⟨1, 1⟩⟩, true, false, false, false, false⟩,
   ⟨1, ⟨⟨0, 0⟩, ⟨2, 2⟩⟩, true, false, false, false, false⟩,
   ⟨2, ⟨⟨0, 0⟩, ⟨3, 3⟩⟩, true, false, false, false, false⟩]

/-- Claim C2, counterexample: in `c2Stack` the pair (lower 0, upper 1) lies
in the enabled range, both are invalidated and the upper rectangle contains
the lower one; the pass clears the lower flag as claimed, but it does not
leave the upper flag set: layer 2 (invalidated, containing layer 1) clears
it in the same sweep. -/
theorem claim2_counterexample :
    firstEnabledIdx c2Stack = 0 ∧
    invAt c2Stack 0 = some true ∧
    invAt c2Stack 1 = some true ∧
    contains (dimsAt c2Stack 1) (dimsAt c2Stack 0) = true ∧
    invAt (invalidation_consistency_and_optimization c2Stack) 1 = some false := by
  decide

/-- Claim C2 (amended): for a pair (lower `l`, upper `u`) in the enabled
range with both invalidated and the upper rectangle containing the lower
one, the pass clears the lower flag; the upper flag is left set provided no
layer higher in the enabled range contains the upper rectangle. -/
theorem claim2_occlusion (stack : List UiAdaptor) (l u : Nat)
    (hk : firstEnabledIdx stack ≤ l) (hlu : l < u) (hu : u < stack.length)
    (hl_inv : invAt stack l = some true)
    (hu_inv : invAt stack u = some true)
    (hcont : contains (dimsAt stack u) (dimsAt stack l) = true) :
    invAt (invalidation_consistency_and_optimization stack) l = some false ∧
    ((∀ j, u < j → j < stack.length →
        contains (dimsAt stack j) (dimsAt stack u) = false) →
      invAt (invalidation_consistency_and_optimization stack) u = some true) := by
  have hklen := firstEnabledIdx_le_length stack
  have hel : firstEnabledIdx stack + (l - firstEnabledIdx stack) = l := by omega
  have heu : firstEnabledIdx stack + (u - firstEnabledIdx stack) = u := by omega
  constructor
  · rw [invAt_icao_high hk]
    refine @reconcileSeg_occlusion _ (l - firstEnabledIdx stack)
      (u - firstEnabledIdx stack) (by omega) ?_ ?_ ?_
    · simp only [List.length_drop]
      omega
    · rw [invAt_drop, heu]
      exact hu_inv
    · rw [dimsAt_drop, dimsAt_drop, hel, heu]
      exact hcont
  · intro hUc
    rw [invAt_icao_high (by omega)]
    apply reconcileSeg_inv_true
    · rw [invAt_drop, heu]
      exact hu_inv
    · intro j h1 h2
      simp only [List.length_drop] at h2
      rw [dimsAt_drop, dimsAt_drop, heu]
      exact hUc _ (by omega) (by omega)

/-- Concrete two-layer stack on which the amended claim C2 is instantiated. -/
def c2WitStack : List UiAdaptor :=
  [⟨0, ⟨⟨0, 0⟩, ⟨1, 1⟩⟩, true, false, false, false, false⟩,
   ⟨1, ⟨⟨0, 0⟩, ⟨2, 2⟩⟩, true, false, false, false, false⟩]

/-- Witness for the amended claim C2 at a concrete two-layer stack. -/
theorem claim2_occlusion_witness :
    invAt (invalidation_consistency_and_optimization c2WitStack) 0 = some false ∧
    invAt (invalidation_consistency_and_optimization c2WitStack) 1 = some true := by
  have h := claim2_occlusion c2WitStack 0 1 (by decide) (by decide) (by decide)
    (by decide) (by decide) (by decide)
  refine ⟨h.1, h.2 ?_⟩
  intro j h1 h2
  have : j < 2 := by simpa [c2WitStack] using h2
  omega

/-! ### Claim C3 -/

/-- Concrete two-layer stack on which a degenerate-rectangle invalidation
with `reenable_uis_below = true` still mutates a flag (through the
consistency pass). -/
def c3Stack : List UiAdaptor :=
  [⟨0, ⟨⟨0, 0⟩, ⟨2, 2⟩⟩, true, false, false, false, false⟩,
   ⟨1, ⟨⟨1, 1⟩, ⟨3, 3⟩⟩, false, false, false, false, false⟩]

/-- Claim C3, counterexample: with the degenerate rectangle whose two
corners coincide and `reenable_uis_below = true`, `invalidate` runs the
consistency pass, which sets layer 1's flag — so the call does mutate an
invalidated flag, contradicting the claim's "for both values of
reenableBelow". -/
theorem claim3_counterexample :
    (⟨⟨0, 0⟩, ⟨0, 0⟩⟩ : Rect).p_min = (⟨⟨0, 0⟩, ⟨0, 0⟩⟩ : Rect).p_max ∧
    invAt c3Stack 1 = some false ∧
    invAt (invalidate c3Stack ⟨⟨0, 0⟩, ⟨0, 0⟩⟩ true) 1 = some true := by
  decide

/-- Claim C3 (amended): a degenerate rectangle with
`reenable_uis_below = false` mutates nothing at all; with
`reenable_uis_below = true` the call performs exactly the consistency pass
(and nothing else). -/
theorem claim3_degenerate (stack : List UiAdaptor) (rect : Rect)
    (hdeg : rect.p_min.x ≥ rect.p_max.x ∨ rect.p_min.y ≥ rect.p_max.y) :
    invalidate stack rect false = stack ∧
    invalidate stack rect true =
      invalidation_consistency_and_optimization stack := by
  have hc : (decide (rect.p_min.x ≥ rect.p_max.x)
      || decide (rect.p_min.y ≥ rect.p_max.y)) = true := by
    rcases hdeg with h | h <;> simp [h]
  constructor
  · unfold invalidate
    rw [if_pos hc]
    simp
  · unfold invalidate
    rw [if_pos hc]
    simp

/-- Witness for the amended claim C3 at a concrete stack and degenerate
rectangle. -/
theorem claim3_degenerate_witness :
    invalidate c3Stack ⟨⟨5, 5⟩, ⟨5, 9⟩⟩ false = c3Stack ∧
    invalidate c3Stack ⟨⟨5, 5⟩, ⟨5, 9⟩⟩ true =
      invalidation_consistency_and_optimization c3Stack :=
  claim3_degenerate c3Stack ⟨⟨5, 5⟩, ⟨5, 9⟩⟩ (Or.inl (by decide))

/-! ### Claim C5 -/

/-- Claim C5 (confirmed): for a non-degenerate rectangle, `invalidate` is
exactly the consistency pass applied to the stack in which every layer of
the entire stack has its flag set iff it was already set or its rectangle
overlaps `rect`; all other fields are untouched. -/
theorem claim5_region (stack : List UiAdaptor) (rect : Rect) (b : Bool)
    (hnd : rect.p_min.x < rect.p_max.x ∧ rect.p_min.y < rect.p_max.y) :
    invalidate stack rect b =
      invalidation_consistency_and_optimization
        (stack.map fun ui =>
          if !ui.invalidated && overlap ui.dimensions rect then
            { ui with invalidated := true } else ui) ∧
    ∀ i : Nat, (stack.map fun ui =>
          if !ui.invalidated && overlap ui.dimensions rect then
            { ui with invalidated := true } else ui)[i]? =
        (stack[i]?).map (fun ui : UiAdaptor =>
          ({ ui with
              invalidated := ui.invalidated || overlap ui.dimensions rect } :
            UiAdaptor)) := by
  have hc : (decide (rect.p_min.x ≥ rect.p_max.x)
      || decide (rect.p_min.y ≥ rect.p_max.y)) = false := by
    simp only [Bool.or_eq_false_iff, decide_eq_false_iff_not, not_le]
    exact hnd
  constructor
  · unfold invalidate
    rw [if_neg (by simp [hc])]
  · intro i
    rw [List.getElem?_map]
    cases hi : stack[i]? with
    | none => rfl
    | some a =>
      simp only [Option.map_some', Option.some.injEq]
      exact markFn_eq rect a

/-- Concrete one-layer stack on which claim C5 is instantiated. -/
def c5Stack : List UiAdaptor :=
  [⟨0, ⟨⟨0, 0⟩, ⟨2, 2⟩⟩, false, false, false, false, false⟩]

/-- Witness for claim C5 at a concrete stack and non-degenerate rectangle. -/
theorem claim5_region_witness :
    invalidate c5Stack ⟨⟨1, 1⟩, ⟨3, 3⟩⟩ false =
      invalidation_consistency_and_optimization
        (c5Stack.map fun ui =>
          if !ui.invalidated && overlap ui.dimensions ⟨⟨1, 1⟩, ⟨3, 3⟩⟩ then
            { ui with invalidated := true } else ui) :=
  (claim5_region c5Stack ⟨⟨1, 1⟩, ⟨3, 3⟩⟩ false ⟨by decide, by decide⟩).1

/-! ### Helpers for the redraw scheduler and the remaining entry points -/

theorem invAt_set_ne {es : List UiAdaptor} {i j : Nat} {a : UiAdaptor}
    (h : i ≠ j) : invAt (es.set i a) j = invAt es j := by
  unfold invAt
  rw [List.getElem?_set_ne h]

theorem clearResizeFlag_inv (ui : UiAdaptor) :
    (clearResizeFlag ui).invalidated = ui.invalidated := by
  unfold clearResizeFlag
  split <;> rfl

theorem clearResizeFlag_rcb (ui : UiAdaptor) :
    (clearResizeFlag ui).has_redraw_cb = ui.has_redraw_cb := by
  unfold clearResizeFlag
  split <;> rfl

theorem clearInvFlag_inv (ui : UiAdaptor) :
    (clearInvFlag ui).invalidated = false := by
  unfold clearInvFlag
  by_cases h : ui.invalidated = true
  · rw [if_pos h]
  · rw [if_neg h]
    revert h
    cases ui.invalidated <;> simp

theorem take_length_of_le {l : List UiAdaptor} {k : Nat} (h : k ≤ l.length) :
    (l.take k).length = k := by
  rw [List.length_take]
  omega

theorem any_rcb_map_clearResize (l : List UiAdaptor) :
    (l.map clearResizeFlag).any (fun ui => ui.invalidated && ui.has_redraw_cb)
      = l.any (fun ui => ui.invalidated && ui.has_redraw_cb) := by
  induction l with
  | nil => rfl
  | cons a t ih =>
    simp only [List.map_cons, List.any_cons, ih, clearResizeFlag_inv,
      clearResizeFlag_rcb]

theorem resizePhase_length (stack : List UiAdaptor) (k : Nat)
    (hk : k ≤ stack.length) : (resizePhase stack k).length = stack.length := by
  unfold resizePhase
  split
  · simp only [List.length_append, List.length_take, List.length_map,
      List.length_drop]
    omega
  · rfl

theorem resizePhase_inv (stack : List UiAdaptor) (k i : Nat)
    (hk : k ≤ stack.length) :
    invAt (resizePhase stack k) i = invAt stack i := by
  unfold resizePhase
  split
  · unfold invAt
    by_cases hik : i < k
    · rw [List.getElem?_append_left (by rw [take_length_of_le hk]; omega),
        List.getElem?_take_of_lt hik]
    · rw [List.getElem?_append_right (by rw [take_length_of_le hk]; omega),
        take_length_of_le hk, List.getElem?_map, List.getElem?_drop]
      have he : k + (i - k) = i := by omega
      rw [he]
      cases stack[i]? <;> simp [clearResizeFlag_inv]
  · rfl

theorem resizePhase_rcb_any (stack : List UiAdaptor) (k : Nat)
    (hk : k ≤ stack.length) :
    ((resizePhase stack k).drop k).any
        (fun ui => ui.invalidated && ui.has_redraw_cb)
      = (stack.drop k).any (fun ui => ui.invalidated && ui.has_redraw_cb) := by
  unfold resizePhase
  split
  · rw [List.drop_left' (take_length_of_le hk), any_rcb_map_clearResize]
  · rfl

theorem redrawPhase_inv_cleared (stack : List UiAdaptor) (k i : Nat)
    (hki : k ≤ i) (hi : i < stack.length)
    (hneeds : (stack.drop k).any
      (fun ui => ui.invalidated && ui.has_redraw_cb) = true) :
    invAt (redrawPhase stack k) i = some false := by
  have hk : k ≤ stack.length := by omega
  unfold redrawPhase
  rw [if_pos hneeds]
  unfold invAt
  rw [List.getElem?_append_right (by rw [take_length_of_le hk]; omega),
    take_length_of_le hk, List.getElem?_map, List.getElem?_drop]
  have he : k + (i - k) = i := by omega
  rw [he, List.getElem?_eq_getElem hi]
  simp [clearInvFlag_inv]

theorem layerKey_markFn (rect : Rect) (ui : UiAdaptor) :
    layerKey (if !ui.invalidated && overlap ui.dimensions rect then
      { ui with invalidated := true } else ui) = layerKey ui := by
  split <;> rfl

theorem map_key_of_pointwise {f : UiAdaptor → UiAdaptor}
    (hf : ∀ ui, layerKey (f ui) = layerKey ui) (l : List UiAdaptor) :
    (l.map f).map layerKey = l.map layerKey := by
  induction l with
  | nil => rfl
  | cons a t ih => simp only [List.map_cons, hf a, ih]

theorem invalidate_map_key (stack : List UiAdaptor) (rect : Rect) (b : Bool) :
    (invalidate stack rect b).map layerKey = stack.map layerKey := by
  unfold invalidate
  split
  · split
    · exact icao_map_key stack
    · rfl
  · rw [icao_map_key, map_key_of_pointwise (layerKey_markFn rect)]

/-! ### Claim C4 -/

/-- A single invalidated layer with no redraw callback: `redraw_invalidated`
leaves its flag set because `needs_redraw` never becomes true. -/
def c4Stack : List UiAdaptor :=
  [⟨0, ⟨⟨0, 0⟩, ⟨1, 1⟩⟩, true, false, false, false, false⟩]

/-- Claim C4, counterexample: test mode off, non-empty stack, layer 0 of the
enabled range invalidated at the start of the redraw phase, yet after
`redraw_invalidated` its flag is still set: with no layer having both the
flag and a redraw callback, the clearing loop never runs. -/
theorem claim4_counterexample :
    firstEnabledIdx c4Stack = 0 ∧
    invAt c4Stack 0 = some true ∧
    invAt (redraw_invalidated false c4Stack) 0 = some true := by
  decide

/-- Claim C4 (amended): when test mode is off, the stack non-empty, and at
least one layer of the enabled range is invalidated and has a redraw
callback, every invalidated layer of the enabled range ends
`redraw_invalidated` with its flag cleared, even a layer with no redraw
callback registered. -/
theorem claim4_redraw_clears (stack : List UiAdaptor)
    (hne : stack ≠ [])
    (hneeds : (stack.drop (firstEnabledIdx stack)).any
      (fun ui => ui.invalidated && ui.has_redraw_cb) = true)
    (i : Nat) (hk : firstEnabledIdx stack ≤ i) (hi : i < stack.length)
    (hinv : invAt stack i = some true) :
    invAt (redraw_invalidated false stack) i = some false := by
  have hkle := firstEnabledIdx_le_length stack
  have hie : stack.isEmpty = false := by simp [hne]
  unfold redraw_invalidated
  rw [if_neg (by simp [hie])]
  apply redrawPhase_inv_cleared
  · exact hk
  · rw [resizePhase_length _ _ hkle]
    exact hi
  · rw [resizePhase_rcb_any _ _ hkle]
    exact hneeds

/-- One invalidated layer with a redraw callback and one invalidated layer
without: instantiation stack for the amended claim C4. -/
def c4WitStack : List UiAdaptor :=
  [⟨0, ⟨⟨0, 0⟩, ⟨1, 1⟩⟩, true, false, false, false, false⟩,
   ⟨1, ⟨⟨2, 2⟩, ⟨3, 3⟩⟩, true, false, false, true, false⟩]

/-- Witness for the amended claim C4: the layer without a callback also ends
with its flag cleared. -/
theorem claim4_redraw_clears_witness :
    invAt (redraw_invalidated false c4WitStack) 0 = some false :=
  claim4_redraw_clears c4WitStack (by decide) (by decide) 0 (by decide)
    (by decide) (by decide)

/-! ### Claim C6 -/

/-- Claim C6 (confirmed): `invalidate_ui` leaves the stack unchanged exactly
when the located layer is already invalidated, the layer is not in the
stack, or some layer above it fully contains its rectangle; otherwise it
marks the layer invalidated and runs the consistency pass on the result. -/
theorem claim6_invalidate_ui (stack : List UiAdaptor) (selfId : Nat) :
    (invalidate_ui stack selfId = stack ↔
      ∀ i, uiFindIdx (fun ui => ui.id == selfId) stack = some i →
        invAt stack i = some true ∨
        ∃ j, i < j ∧ j < stack.length ∧
          contains (dimsAt stack j) (dimsAt stack i) = true) ∧
    (∀ i self, uiFindIdx (fun ui => ui.id == selfId) stack = some i →
      stack[i]? = some self → self.invalidated = false →
      (∀ j, i < j → j < stack.length →
        contains (dimsAt stack j) (dimsAt stack i) = false) →
      invalidate_ui stack selfId =
        invalidation_consistency_and_optimization
          (stack.set i { self with invalidated := true })) := by
  have main2 : ∀ i self,
      uiFindIdx (fun ui => ui.id == selfId) stack = some i →
      stack[i]? = some self → self.invalidated = false →
      (∀ j, i < j → j < stack.length →
        contains (dimsAt stack j) (dimsAt stack i) = false) →
      invalidate_ui stack selfId =
        invalidation_consistency_and_optimization
          (stack.set i { self with invalidated := true }) := by
    intro i self hfind hget hinv hno
    have hnotany : ¬ ((stack.drop (i + 1)).any
        (fun upper => contains upper.dimensions self.dimensions) = true) := by
      rw [any_contains_iff]
      rintro ⟨j, h1, h2, h3⟩
      have h4 := hno j h1 h2
      rw [dimsAt_eq hget] at h4
      rw [h4] at h3
      cases h3
    rw [invalidate_ui_eq_some hfind hget, if_neg (by simp [hinv]),
      if_neg hnotany]
  refine ⟨?_, main2⟩
  cases hfind : uiFindIdx (fun ui => ui.id == selfId) stack with
  | none =>
    rw [invalidate_ui_eq_none hfind]
    constructor
    · intro _ i hi
      cases hi
    · intro _
      rfl
  | some i =>
    obtain ⟨self, hget, hpid⟩ := uiFindIdx_found hfind
    by_cases hinv : self.invalidated = true
    · rw [invalidate_ui_eq_some hfind hget, if_pos hinv]
      constructor
      · intro _ i' hi'
        injection hi' with hii
        subst hii
        left
        rw [invAt_eq hget, hinv]
      · intro _
        rfl
    · by_cases hany : (stack.drop (i + 1)).any
          (fun upper => contains upper.dimensions self.dimensions) = true
      · rw [invalidate_ui_eq_some hfind hget, if_neg hinv, if_pos hany]
        constructor
        · intro _ i' hi'
          injection hi' with hii
          subst hii
          right
          have h5 := any_contains_iff.mp hany
          rwa [← dimsAt_eq hget] at h5
        · intro _
          rfl
      · have hinvf : self.invalidated = false := by
          revert hinv
          cases self.invalidated <;> simp
        have hno' : ∀ j, i < j → j < stack.length →
            contains (dimsAt stack j) (dimsAt stack i) = false := by
          intro j h1 h2
          have h3 := not_any_contains hany j h1 h2
          rwa [← dimsAt_eq hget] at h3
        have heq := main2 i self hfind hget hinvf hno'
        have hne : invalidate_ui stack selfId ≠ stack := by
          rw [heq]
          intro habs
          have h1 := icao_set_inv_true hget (not_any_contains hany)
          rw [habs, invAt_eq hget, hinvf] at h1
          cases h1
        constructor
        · intro he
          exact absurd he hne
        · intro hcond
          exfalso
          rcases hcond i rfl with hA | hB
          · rw [invAt_eq hget, hinvf] at hA
            cases hA
          · apply hany
            rw [any_contains_iff]
            obtain ⟨j, h1, h2, h3⟩ := hB
            exact ⟨j, h1, h2, by rwa [dimsAt_eq hget] at h3⟩

/-- A single fresh layer: instantiation stack for claim C6. -/
def c6Stack : List UiAdaptor :=
  [⟨7, ⟨⟨0, 0⟩, ⟨2, 2⟩⟩, false, false, false, false, false⟩]

/-- Witness for claim C6: the effective branch at a concrete stack. -/
theorem claim6_invalidate_ui_witness :
    invalidate_ui c6Stack 7 =
      invalidation_consistency_and_optimization
        (c6Stack.set 0 ⟨7, ⟨⟨0, 0⟩, ⟨2, 2⟩⟩, true, false, false, false, false⟩) := by
  refine (claim6_invalidate_ui c6Stack 7).2 0
    ⟨7, ⟨⟨0, 0⟩, ⟨2, 2⟩⟩, false, false, false, false, false⟩ ?_ ?_ ?_ ?_
  · decide
  · decide
  · decide
  · intro j h1 h2
    have : j < 1 := by simpa [c6Stack] using h2
    omega

/-! ### Claim C7 -/

/-- Claim C7 (confirmed): calling `invalidate_ui` twice in a row on the same
layer, with no intervening change, leaves exactly the state of a single
call. -/
theorem claim7_idempotent (stack : List UiAdaptor) (selfId : Nat) :
    invalidate_ui (invalidate_ui stack selfId) selfId =
      invalidate_ui stack selfId := by
  cases hfind : uiFindIdx (fun ui => ui.id == selfId) stack with
  | none => rw [invalidate_ui_eq_none hfind, invalidate_ui_eq_none hfind]
  | some i =>
    obtain ⟨self, hget, hpid⟩ := uiFindIdx_found hfind
    by_cases hinv : self.invalidated = true
    · rw [invalidate_ui_eq_some hfind hget, if_pos hinv,
        invalidate_ui_eq_some hfind hget, if_pos hinv]
    · by_cases hany : (stack.drop (i + 1)).any
          (fun upper => contains upper.dimensions self.dimensions) = true
      · rw [invalidate_ui_eq_some hfind hget, if_neg hinv, if_pos hany,
          invalidate_ui_eq_some hfind hget, if_neg hinv, if_pos hany]
      · rw [invalidate_ui_eq_some hfind hget, if_neg hinv, if_neg hany]
        have hkeyset :
            (stack.set i { self with invalidated := true }).map layerKey
              = stack.map layerKey :=
          map_layerKey_set (fun b hb => by
            rw [hget] at hb
            injection hb with hb
            subst hb
            rfl)
        have hkeyr : (invalidation_consistency_and_optimization
            (stack.set i { self with invalidated := true })).map layerKey
              = stack.map layerKey := by
          rw [icao_map_key, hkeyset]
        have hfind_r : uiFindIdx (fun ui => ui.id == selfId)
            (invalidation_consistency_and_optimization
              (stack.set i { self with invalidated := true })) = some i := by
          rw [uiFindIdx_congr (map_pred_congr_of_key hkeyr _
            (fun a b hab => by rw [(layerKey_fields hab).1]))]
          exact hfind
        have hri : invAt (invalidation_consistency_and_optimization
            (stack.set i { self with invalidated := true })) i = some true :=
          icao_set_inv_true hget (not_any_contains hany)
        obtain ⟨a, hra, hainv⟩ := invAt_some hri
        rw [invalidate_ui_eq_some hfind_r hra, if_pos hainv]

/-- Witness for claim C7: idempotence instantiated on a concrete stack (the
three-layer stack of claim C1's counterexample shape is reused here with
fresh data). -/
def c7Stack : List UiAdaptor :=
  [⟨3, ⟨⟨0, 0⟩, ⟨2, 2⟩⟩, false, false, false, false, false⟩,
   ⟨4, ⟨⟨1, 0⟩, ⟨3, 2⟩⟩, false, false, false, false, false⟩]

/-- Witness for claim C7 at a concrete stack. -/
theorem claim7_idempotent_witness :
    invalidate_ui (invalidate_ui c7Stack 3) 3 = invalidate_ui c7Stack 3 :=
  claim7_idempotent c7Stack 3

/-! ### Claim C8 -/

/-- A layer whose new footprint is contained in an invalidated upper layer:
after `position`, the consistency pass clears the repositioned layer's
flag. -/
def c8Stack : List UiAdaptor :=
  [⟨0, ⟨⟨5, 5⟩, ⟨6, 6⟩⟩, false, false, false, false, false⟩,
   ⟨1, ⟨⟨-1, -1⟩, ⟨10, 10⟩⟩, true, false, false, false, false⟩]

/-- Claim C8, counterexample: after `position` the layer's dimensions are
the new rectangle, but its invalidated flag is false, not true: the
consistency pass run by the invalidation of the old region cleared it
(layer 1 is invalidated and contains the new footprint). -/
theorem claim8_counterexample :
    dimsAt (position c8Stack 0 ⟨0, 0⟩ ⟨2, 2⟩) 0 = ⟨⟨0, 0⟩, ⟨2, 2⟩⟩ ∧
    invAt (position c8Stack 0 ⟨0, 0⟩ ⟨2, 2⟩) 0 = some false := by
  decide

/-- Claim C8 (amended): `position` equals invalidating the old rectangle
(with `reenable_uis_below = false`) on the stack in which the layer already
carries the new rectangle and a set invalidated flag — the dimensions
update happens before the invalidation call, and the final dimensions are
`topleft .. topleft + size`; the final flag, however, is whatever that
invalidation leaves. -/
theorem claim8_position (stack : List UiAdaptor) (i : Nat)
    (topleft size : Pt) (self : UiAdaptor) (hself : stack[i]? = some self) :
    position stack i topleft size =
      invalidate
        (stack.set i
          { self with dimensions := ⟨topleft, Pt.add topleft size⟩,
                      invalidated := true })
        self.dimensions false ∧
    dimsAt (position stack i topleft size) i
      = ⟨topleft, Pt.add topleft size⟩ := by
  have heq : position stack i topleft size =
      invalidate
        (stack.set i
          { self with dimensions := ⟨topleft, Pt.add topleft size⟩,
                      invalidated := true })
        self.dimensions false := by
    simp only [position, hself]
  refine ⟨heq, ?_⟩
  rw [heq, dimsAt_congr (invalidate_map_key _ _ _),
    dimsAt_eq (List.getElem?_set_self
      (by simpa using lt_length_of_getElem? hself))]

/-- A single fresh layer: instantiation stack for the amended claim C8. -/
def c8WitStack : List UiAdaptor :=
  [⟨0, ⟨⟨0, 0⟩, ⟨1, 1⟩⟩, false, false, false, false, false⟩]

/-- Witness for the amended claim C8 at a concrete stack. -/
theorem claim8_position_witness :
    position c8WitStack 0 ⟨2, 3⟩ ⟨4, 5⟩ =
      invalidate
        (c8WitStack.set 0 ⟨0, ⟨⟨2, 3⟩, ⟨6, 8⟩⟩, true, false, false, false, false⟩)
        ⟨⟨0, 0⟩, ⟨1, 1⟩⟩ false ∧
    dimsAt (position c8WitStack 0 ⟨2, 3⟩ ⟨4, 5⟩) 0 = ⟨⟨2, 3⟩, ⟨6, 8⟩⟩ :=
  claim8_position c8WitStack 0 ⟨2, 3⟩ ⟨4, 5⟩
    ⟨0, ⟨⟨0, 0⟩, ⟨1, 1⟩⟩, false, false, false, false, false⟩ (by decide)

/-! ### Claim C9 -/

/-- Claim C9 (confirmed): on a layer strictly below the enabled range, the
consistency pass, region invalidation (for any rectangle and either value
of `reenable_uis_below`) and layer invalidation never clear a set
invalidated flag. -/
theorem claim9_disabled_monotone (stack : List UiAdaptor) (i : Nat)
    (hi : i < firstEnabledIdx stack) (hinv : invAt stack i = some true)
    (rect : Rect) (b : Bool) (selfId : Nat) :
    invAt (invalidation_consistency_and_optimization stack) i = some true ∧
    invAt (invalidate stack rect b) i = some true ∧
    invAt (invalidate_ui stack selfId) i = some true := by
  refine ⟨?_, ?_, ?_⟩
  · rw [invAt_icao_low hi]
    exact hinv
  · unfold invalidate
    split
    · split
      · rw [invAt_icao_low hi]
        exact hinv
      · exact hinv
    · have hkey := map_key_of_pointwise (layerKey_markFn rect) stack
      have hkidx := firstEnabledIdx_of_key hkey
      rw [invAt_icao_low (by rw [hkidx]; exact hi)]
      obtain ⟨a, ha, hai⟩ := invAt_some hinv
      unfold invAt
      rw [List.getElem?_map, ha]
      simp [hai]
  · cases hfind : uiFindIdx (fun ui => ui.id == selfId) stack with
    | none =>
      rw [invalidate_ui_eq_none hfind]
      exact hinv
    | some j =>
      obtain ⟨self, hget, hpid⟩ := uiFindIdx_found hfind
      rw [invalidate_ui_eq_some hfind hget]
      split
      · exact hinv
      · split
        · exact hinv
        · have hkey := @map_layerKey_set stack j
            { self with invalidated := true }
            (fun b hb => by
              rw [hget] at hb
              injection hb with hb
              subst hb
              rfl)
          have hkidx := firstEnabledIdx_of_key hkey
          rw [invAt_icao_low (by rw [hkidx]; exact hi)]
          by_cases hij : j = i
          · subst hij
            rw [invAt_eq (List.getElem?_set_self
              (by simpa using lt_length_of_getElem? hget))]
          · rw [invAt_set_ne hij]
            exact hinv

/-- A stack with a blocking layer on top and an invalidated disabled layer
below it: instantiation for claim C9. -/
def c9Stack : List UiAdaptor :=
  [⟨0, ⟨⟨0, 0⟩, ⟨3, 3⟩⟩, true, false, false, false, false⟩,
   ⟨1, ⟨⟨0, 0⟩, ⟨2, 2⟩⟩, false, true, false, false, false⟩]

/-- Witness for claim C9 at a concrete stack. -/
theorem claim9_disabled_monotone_witness :
    invAt (invalidation_consistency_and_optimization c9Stack) 0 = some true ∧
    invAt (invalidate c9Stack ⟨⟨0, 0⟩, ⟨4, 4⟩⟩ true) 0 = some true ∧
    invAt (invalidate_ui c9Stack 1) 0 = some true :=
  claim9_disabled_monotone c9Stack 0 (by decide) (by decide)
    ⟨⟨0, 0⟩, ⟨4, 4⟩⟩ true 1

/-! ### Claim C10 -/

/-- Claim C10 (confirmed): in test mode, on a non-empty stack, `redraw`
still marks the topmost layer invalidated and changes nothing else —
`redraw_invalidated` returns before doing anything, but the topmost layer
was marked before the call. -/
theorem claim10_redraw_test_mode (stack : List UiAdaptor)
    (last : UiAdaptor) (hlast : stack.getLast? = some last) :
    redraw true stack =
      stack.set (stack.length - 1) { last with invalidated := true } ∧
    redraw_invalidated true stack = stack := by
  constructor
  · simp only [redraw, hlast]
    unfold redraw_invalidated
    rw [if_pos (by simp)]
  · unfold redraw_invalidated
    rw [if_pos (by simp)]

/-- Two layers: instantiation stack for claim C10. -/
def c10Stack : List UiAdaptor :=
  [⟨0, ⟨⟨0, 0⟩, ⟨2, 2⟩⟩, false, false, false, true, true⟩,
   ⟨1, ⟨⟨0, 0⟩, ⟨1, 1⟩⟩, false, false, true, true, true⟩]

/-- Witness for claim C10 at a concrete stack. -/
theorem claim10_redraw_test_mode_witness :
    redraw true c10Stack =
      c10Stack.set 1 ⟨1, ⟨⟨0, 0⟩, ⟨1, 1⟩⟩, true, false, true, true, true⟩ ∧
    redraw_invalidated true c10Stack = c10Stack :=
  claim10_redraw_test_mode c10Stack
    ⟨1, ⟨⟨0, 0⟩, ⟨1, 1⟩⟩, false, false, true, true, true⟩ (by decide)

end UiManager
